import Mathlib

/-!
Shallow embedding of the kisom/netallow repository (Go) for checking its
natural-language specification.

Go strings are modelled as `List Char` (the inputs of interest are Latin-1),
`net.IP` byte slices as `List Nat` (a `nil`/empty slice is `[]`), and Go
panics as `Option.none` results where the source can panic.  The relevant
pieces of the Go standard library (`net.ParseIP`, `net.IP.String`,
`net.ParseCIDR`, `net.IPNet.Contains`, `net.IPNet.String`,
`net.SplitHostPort`, `strings.Split`, `strings.TrimSpace`, `strings.Join`,
`sort.Strings`) are translated from the Go `net` and `strings` packages,
since the repository's observable behaviour goes through them.
-/

namespace Netallow

/-- A Go string, as a list of characters.  `strings.TrimSpace` is modelled on
the Latin-1 fragment of `unicode.IsSpace`, which is exact for all inputs the
repository deals with (addresses, CIDR literals and their wire forms). -/
abbrev GoStr := List Char

instance {α β : Type} [DecidableEq α] [DecidableEq β] : DecidableEq (Except α β) :=
  fun a b =>
    match a, b with
    | .ok x, .ok y => decidable_of_iff (x = y) (by simp)
    | .error x, .error y => decidable_of_iff (x = y) (by simp)
    | .ok _, .error _ => isFalse (by simp)
    | .error _, .ok _ => isFalse (by simp)

/-- A Go `net.IP` value: a byte slice.  The `nil` slice is `[]`. -/
abbrev GoIP := List Nat

/-- Whitespace predicate of `strings.TrimSpace` restricted to Latin-1
(`'\t'`, `'\n'`, `'\v'`, `'\f'`, `'\r'`, `' '`, U+0085, U+00A0). -/
def goIsSpace (c : Char) : Bool :=
  c = ' ' || c = '\t' || c = '\n' || c = Char.ofNat 11 || c = Char.ofNat 12 ||
  c = '\r' || c = Char.ofNat 0x85 || c = Char.ofNat 0xA0

/-- Go `strings.TrimSpace`: drop whitespace from both ends. -/
def trimSpace (s : GoStr) : GoStr :=
  ((s.dropWhile goIsSpace).reverse.dropWhile goIsSpace).reverse

/-- Go `strings.Split(s, sep)` for a one-character separator.  In particular
`splitOnChar sep [] = [[]]`, matching `strings.Split("", sep) = [""]`. -/
def splitOnChar (sep : Char) : GoStr → List GoStr
  | [] => [[]]
  | c :: cs =>
    let r := splitOnChar sep cs
    if c = sep then [] :: r
    else (c :: r.headI) :: r.tail

/-- Go `strings.Join(l, "\n")`. -/
def joinNl : List GoStr → GoStr
  | [] => []
  | [s] => s
  | s :: rest => s ++ '\n' :: joinNl rest

/-- Go `net` package `dtoi`: parse a decimal prefix, returning the value, the
number of characters consumed, and an ok flag (`false` when there is no digit
or the value reaches the `big = 0xFFFFFF` cutoff). -/
def dtoiAux : GoStr → Nat → Nat → Nat × Nat × Bool
  | [], n, i => (n, i, true)
  | c :: cs, n, i =>
    if '0' ≤ c ∧ c ≤ '9' then
      let n' := n * 10 + (c.toNat - '0'.toNat)
      if 0xFFFFFF ≤ n' then (0xFFFFFF, i, false)
      else dtoiAux cs n' (i + 1)
    else (n, i, true)

/-- Go `dtoi`, front end: no digit consumed means failure. -/
def dtoi (s : GoStr) : Nat × Nat × Bool :=
  let r := dtoiAux s 0 0
  if r.2.1 = 0 then (0, 0, false) else r

/-- Hex digit value of a character, if it is one. -/
def hexVal (c : Char) : Option Nat :=
  if '0' ≤ c ∧ c ≤ '9' then some (c.toNat - '0'.toNat)
  else if 'a' ≤ c ∧ c ≤ 'f' then some (c.toNat - 'a'.toNat + 10)
  else if 'A' ≤ c ∧ c ≤ 'F' then some (c.toNat - 'A'.toNat + 10)
  else none

/-- Go `net` package `xtoi`: parse a hexadecimal prefix. -/
def xtoiAux : GoStr → Nat → Nat → Nat × Nat × Bool
  | [], n, i => (n, i, true)
  | c :: cs, n, i =>
    match hexVal c with
    | none => (n, i, true)
    | some v =>
      let n' := n * 16 + v
      if 0xFFFFFF ≤ n' then (0, i, false)
      else xtoiAux cs n' (i + 1)

/-- Go `xtoi`, front end. -/
def xtoi (s : GoStr) : Nat × Nat × Bool :=
  let r := xtoiAux s 0 0
  if r.2.1 = 0 then (0, r.2.1, false) else r

/-- Leading 16-byte prefix of a v4-in-v6 address (`net.v4InV6Prefix`). -/
def v4MappedHead : List Nat := [0, 0, 0, 0, 0, 0, 0, 0, 0, 0, 255, 255]

/-- Go `net.IPv4(a, b, c, d)`: the 16-byte v4-in-v6 representation. -/
def v4InV6 (a b c d : Nat) : GoIP := v4MappedHead ++ [a, b, c, d]

/-- One dotted-quad field: `dtoi` bounded by 255 (classic `net.parseIPv4`). -/
def parseV4Field (s : GoStr) : Option (Nat × GoStr) :=
  let (n, c, ok) := dtoi s
  if ¬ ok ∨ 255 < n then none else some (n, s.drop c)

/-- Go `net.parseIPv4` up to the final byte packing: the four field values. -/
def parseIPv4Quad (s : GoStr) : Option (Nat × Nat × Nat × Nat) :=
  match parseV4Field s with
  | none => none
  | some (a, s1) =>
    match s1 with
    | '.' :: s2 =>
      match parseV4Field s2 with
      | none => none
      | some (b, s3) =>
        match s3 with
        | '.' :: s4 =>
          match parseV4Field s4 with
          | none => none
          | some (c, s5) =>
            match s5 with
            | '.' :: s6 =>
              match parseV4Field s6 with
              | none => none
              | some (d, s7) => if s7 = [] then some (a, b, c, d) else none
            | _ => none
        | _ => none
    | _ => none

/-- Go `net.parseIPv4`: a dotted quad becomes a 16-byte v4-in-v6 slice. -/
def parseIPv4 (s : GoStr) : Option GoIP :=
  (parseIPv4Quad s).map fun q => v4InV6 q.1 q.2.1 q.2.2.1 q.2.2.2

/-- Loop of Go `net.parseIPv6`.  `acc` holds the bytes already filled (its
length is Go's `i`), `ell` the `::` position if seen.  Returns the filled
bytes, the ellipsis, and the unconsumed input; `none` is a parse failure.
The fuel only bounds the iteration count, which is at most 8 since every
round adds two bytes toward the 16-byte limit. -/
def parseIPv6Loop : Nat → GoStr → List Nat → Option Nat →
    Option (List Nat × Option Nat × GoStr)
  | 0, _, _, _ => none
  | fuel + 1, s, acc, ell =>
    if 16 ≤ acc.length then some (acc, ell, s)
    else
      let (n, c, ok) := xtoi s
      if ¬ ok ∨ 0xFFFF < n then none
      else if (s.drop c).headI = '.' ∧ c < s.length then
        -- an embedded dotted quad terminates the address
        if ell = none ∧ acc.length ≠ 12 then none
        else if 16 < acc.length + 4 then none
        else
          match parseIPv4 s with
          | none => none
          | some ip4 => some (acc ++ ip4.drop 12, ell, [])
      else
        let acc' := acc ++ [n / 256 % 256, n % 256]
        match s.drop c with
        | [] => some (acc', ell, [])
        | ':' :: rest =>
          if rest = [] then none
          else
            match rest with
            | ':' :: rest2 =>
              if ell.isSome then none
              else if rest2 = [] then some (acc', some acc'.length, [])
              else parseIPv6Loop fuel rest2 acc' (some acc'.length)
            | _ => parseIPv6Loop fuel rest acc' ell
        | _ => none

/-- Post-processing of Go `net.parseIPv6`: reject leftover input, expand the
`::` ellipsis with zeros, reject a `::` in an already-full address. -/
def parseIPv6Post : Option (List Nat × Option Nat × GoStr) → Option GoIP
  | none => none
  | some (acc, ell, leftover) =>
    if leftover ≠ [] then none
    else if acc.length < 16 then
      match ell with
      | none => none
      | some e => some (acc.take e ++ List.replicate (16 - acc.length) 0 ++ acc.drop e)
    else
      match ell with
      | some _ => none
      | none => some acc

/-- Go `net.parseIPv6` on the address part (zone already stripped). -/
def parseIPv6Core (s : GoStr) : Option GoIP :=
  match s with
  | ':' :: ':' :: rest =>
    if rest = [] then some (List.replicate 16 0)
    else parseIPv6Post (parseIPv6Loop 9 rest [] (some 0))
  | _ => parseIPv6Post (parseIPv6Loop 9 s [] none)

/-- Go `net.parseIPv6Zone`: split the zone off at the first `'%'` and parse
the rest (the repository never looks at the zone). -/
def parseIPv6Zone (s : GoStr) : Option GoIP :=
  parseIPv6Core (s.takeWhile (· ≠ '%'))

/-- Scanner of Go `net.ParseIP`: the first `'.'` or `':'` decides the
address family; `full` is the whole input. -/
def parseIPAux (full : GoStr) : GoStr → Option GoIP
  | [] => none
  | c :: cs =>
    if c = '.' then parseIPv4 full
    else if c = ':' then parseIPv6Zone full
    else parseIPAux full cs

/-- Go `net.ParseIP`. -/
def parseIP (s : GoStr) : Option GoIP := parseIPAux s s

/-- Go `net.IP.To4`: a 4-byte slice itself, the tail of a v4-mapped 16-byte
slice, `[]` (modelling `nil`) otherwise. -/
def to4 (ip : GoIP) : GoIP :=
  if ip.length = 4 then ip
  else if ip.length = 16 ∧ ip.take 12 = v4MappedHead then ip.drop 12
  else []

/-- Go `net` package `uitoa` (decimal print).  The fuel only bounds the digit
count and `n + 1` digits always suffice. -/
def uitoaAux : Nat → Nat → GoStr
  | 0, _ => []
  | fuel + 1, n =>
    if n < 10 then [Char.ofNat ('0'.toNat + n)]
    else uitoaAux fuel (n / 10) ++ [Char.ofNat ('0'.toNat + n % 10)]

/-- Go `uitoa`. -/
def uitoa (n : Nat) : GoStr := uitoaAux (n + 1) n

/-- Go `net` package `appendHex` (lowercase hex print without leading
zeros, but `"0"` for zero). -/
def hexDigitChar (n : Nat) : Char :=
  if n < 10 then Char.ofNat ('0'.toNat + n) else Char.ofNat ('a'.toNat + n - 10)

/-- Hex print of one number, as `appendHex` produces for values below 2^32. -/
def toHexAux : Nat → Nat → GoStr
  | 0, _ => []
  | fuel + 1, n =>
    if n < 16 then [hexDigitChar n]
    else toHexAux fuel (n / 16) ++ [hexDigitChar (n % 16)]

/-- Go `appendHex` of a single value. -/
def toHex (n : Nat) : GoStr := toHexAux (n + 1) n

/-- Go `net` package `hexString`: every byte as two hex digits. -/
def hexString (bs : List Nat) : GoStr :=
  bs.flatMap fun b => [hexDigitChar (b / 16 % 16), hexDigitChar (b % 16)]

/-- End of the run of zero 16-bit groups starting at byte `i` of a 16-byte
address (the inner `j` loop of Go `net.IP.String`). -/
def zrunEndAux : Nat → GoIP → Nat → Nat
  | 0, _, i => i
  | fuel + 1, ip, i =>
    if i < 16 ∧ ip.getD i 1 = 0 ∧ ip.getD (i + 1) 1 = 0 then zrunEndAux fuel ip (i + 2)
    else i

/-- End of the zero run starting at `i`. -/
def zrunEnd (ip : GoIP) (i : Nat) : Nat := zrunEndAux 9 ip i

/-- The leftmost longest run of zero groups (the `e0`/`e1` scan of Go
`net.IP.String`); later runs win only when strictly longer. -/
def bestRun : Nat → GoIP → Nat → Option (Nat × Nat) → Option (Nat × Nat)
  | 0, _, _, best => best
  | fuel + 1, ip, i, best =>
    if 16 ≤ i then best
    else
      let j := zrunEnd ip i
      let cur := match best with
        | none => 0
        | some (a, b) => b - a
      if i < j ∧ cur < j - i then bestRun fuel ip j (some (i, j))
      else bestRun fuel ip (i + 2) best

/-- The 16-bit group of a 16-byte address at byte offset `i`. -/
def hexGroup (ip : GoIP) (i : Nat) : GoStr := toHex (ip.getD i 0 * 256 + ip.getD (i + 1) 0)

/-- Output loop of Go `net.IP.String` for IPv6: groups separated by `':'`,
with the chosen zero run `[e0, e1)` printed as `"::"`.  Sentinel `e0 = 99`
means no run. -/
def v6Loop : Nat → GoIP → Nat → Nat → Nat → GoStr
  | 0, _, _, _, _ => []
  | fuel + 1, ip, e0, e1, i =>
    if 16 ≤ i then []
    else if i = e0 then
      if 16 ≤ e1 then [':', ':']
      else ':' :: ':' :: (hexGroup ip e1 ++ v6Loop fuel ip e0 e1 (e1 + 2))
    else
      (if i = 0 then [] else [':']) ++ hexGroup ip i ++ v6Loop fuel ip e0 e1 (i + 2)

/-- RFC 5952 output of Go `net.IP.String` for a 16-byte non-v4-mapped
address. -/
def v6String (ip : GoIP) : GoStr :=
  match bestRun 9 ip 0 none with
  | some (a, b) => if b - a ≤ 2 then v6Loop 10 ip 99 99 0 else v6Loop 10 ip a b 0
  | none => v6Loop 10 ip 99 99 0

/-- Dotted-quad print of a 4-byte slice. -/
def dottedQuad (p : GoIP) : GoStr :=
  uitoa (p.getD 0 0) ++ '.' :: uitoa (p.getD 1 0) ++ '.' :: uitoa (p.getD 2 0) ++
    '.' :: uitoa (p.getD 3 0)

/-- Go `net.IP.String`: `"<nil>"` for the nil slice, dotted quad whenever
`To4` succeeds (so a v4-mapped 16-byte address prints as its quad), hex with
a `'?'` for impossible lengths, RFC 5952 text otherwise. -/
def ipString (ip : GoIP) : GoStr :=
  if ip = [] then '<' :: 'n' :: 'i' :: 'l' :: '>' :: []
  else
    let p4 := to4 ip
    if p4.length = 4 then dottedQuad p4
    else if ip.length ≠ 16 then '?' :: hexString ip
    else v6String ip

/-- Go `validIP` (netallow.go): length must be exactly 4 or 16. -/
def validIP (ip : GoIP) : Bool :=
  if ip.length = 4 then true
  else if ip.length = 16 then true
  else false

/-- The host ACL `Basic` of netallow.go: a mutex plus `allowed
map[string]bool`.  The map only ever stores `true`, so its observable state
is its key set, modelled as a duplicate-free key list; a lookup of a missing
key yields `false` and insertion of a present key is a no-op, exactly as for
the Go map.  A `nil` map (which `Permitted` reads as empty) is modelled by
`[]`. -/
structure Basic where
  allowed : List GoStr
deriving DecidableEq

/-- Insertion into the key set of a Go `map[string]bool` holding `true`. -/
def insertKey (l : List GoStr) (s : GoStr) : List GoStr :=
  if s ∈ l then l else l ++ [s]

/-- Go `Basic.Permitted`: reject invalid lengths, then look `ip.String()` up
in the map. -/
def Basic.permitted (acl : Basic) (ip : GoIP) : Bool :=
  if ¬ validIP ip then false
  else decide (ipString ip ∈ acl.allowed)

/-- Go `Basic.Add`: no-op on an invalid address, otherwise insert
`ip.String()`. -/
def Basic.add (acl : Basic) (ip : GoIP) : Basic :=
  if ¬ validIP ip then acl
  else ⟨insertKey acl.allowed (ipString ip)⟩

/-- Go `Basic.Remove`: no-op on an invalid address, otherwise delete the key
`ip.String()`. -/
def Basic.remove (acl : Basic) (ip : GoIP) : Basic :=
  if ¬ validIP ip then acl
  else ⟨acl.allowed.filter (fun s => decide (s ≠ ipString ip))⟩

/-- Go `NewBasic`: the empty ACL. -/
def newBasic : Basic := ⟨[]⟩

/-- Byte-lexicographic string order of Go's `sort.Strings` (a proper prefix
sorts first). -/
def goStrLe : GoStr → GoStr → Bool
  | [], _ => true
  | _ :: _, [] => false
  | a :: as, b :: bs => if a < b then true else if b < a then false else goStrLe as bs

/-- Propositional form of `goStrLe` for `List.insertionSort`. -/
def strLe (a b : GoStr) : Prop := goStrLe a b = true

instance : DecidableRel strLe := fun _ _ => inferInstanceAs (Decidable (_ = true))

/-- Go `sort.Strings`.  Any sorting algorithm computes the same list because
string comparison is a total order, so insertion sort is a faithful model. -/
def sortStrings (l : List GoStr) : List GoStr := l.insertionSort strLe

/-- Go `DumpBasic` (netallow.go): sort the members and join with
newlines. -/
def dumpBasic (acl : Basic) : GoStr := joinNl (sortStrings acl.allowed)

/-- Line loop of Go `LoadBasic`: `ParseIP` each line, abort on the first
failure, `Add` the rest. -/
def loadLoop : List GoStr → Basic → Except String Basic
  | [], acl => .ok acl
  | s :: rest, acl =>
    match parseIP s with
    | none => .error "netallow: invalid address"
    | some ip => loadLoop rest (acl.add ip)

/-- Go `LoadBasic` (netallow.go): split on newlines and load every line.  An
error means no ACL is returned to the caller. -/
def loadBasic (inp : GoStr) : Except String Basic :=
  loadLoop (splitOnChar '\n' inp) newBasic

/-- Token loop of Go `Basic.UnmarshalJSON`: trim each comma token, skip
blanks, `ParseIP` the rest and store the token text as the map key; the
first parse failure aborts. -/
def hostLoop : List GoStr → List GoStr → Except String (List GoStr)
  | [], acc => .ok acc
  | t :: ts, acc =>
    let addr := trimSpace t
    if addr = [] then hostLoop ts acc
    else
      match parseIP addr with
      | none => .error ("netallow: invalid IP address " ++ String.mk addr)
      | some _ => hostLoop ts (insertKey acc addr)

/-- Go `Basic.UnmarshalJSON` (netallow.go).  The result is the new ACL state
plus the returned error; `none` models a Go panic: the empty input panics on
`in[0]`, and the one-character input `"` passes the quote test (both indices
read the same byte) and then panics on the slice `in[1:0]`.  On a parse
error the member map is set to `nil`, modelled as the empty key list. -/
def Basic.unmarshalJSON (acl : Basic) (inp : GoStr) : Option (Basic × Option String) :=
  match inp with
  | [] => none
  | c :: rest =>
    if c ≠ '"' ∨ inp.getLast? ≠ some '"' then some (acl, some "allowed: invalid allowed")
    else if rest = [] then none
    else
      match hostLoop (splitOnChar ',' (trimSpace ((inp.drop 1).dropLast))) [] with
      | .error e => some (⟨[]⟩, some e)
      | .ok l => some (⟨l⟩, none)

/-- A Go `net.IPNet` value (address plus mask). -/
structure GoIPNet where
  ip : GoIP
  mask : List Nat
deriving DecidableEq

/-- Go `net` package `networkNumberAndMask`: canonicalise the network number
via `To4` and cut a 16-byte mask down for a 4-byte number; `none` models the
`nil, nil` return for malformed pairs. -/
def networkNumberAndMask (n : GoIPNet) : Option (GoIP × List Nat) :=
  let t4 := to4 n.ip
  let ip := if t4 = [] then n.ip else t4
  if t4 = [] ∧ n.ip.length ≠ 16 then none
  else
    let m := n.mask
    if m.length = 4 then (if ip.length ≠ 4 then none else some (ip, m))
    else if m.length = 16 then
      (if ip.length = 4 then some (ip, m.drop 12) else some (ip, m))
    else none

/-- Go `net.IPNet.Contains` on a non-nil network.  A `nil, nil` result from
`networkNumberAndMask` flows on as empty slices, as in the source. -/
def ipnetContains (n : GoIPNet) (ip0 : GoIP) : Bool :=
  let nm := (networkNumberAndMask n).getD ([], [])
  let x := to4 ip0
  let ip := if x = [] then ip0 else x
  if ip.length ≠ nm.1.length then false
  else
    (List.range ip.length).all fun i =>
      decide ((nm.1.getD i 0).land (nm.2.getD i 0) = (ip.getD i 0).land (nm.2.getD i 0))

/-- Number of leading one bits of a canonical mask byte (`net.simpleMaskLength`
inner loop); `none` when the byte is not of the form 1…10…0. -/
def prefixOnes (b : Nat) : Option Nat :=
  if b = 0 then some 0 else if b = 128 then some 1 else if b = 192 then some 2
  else if b = 224 then some 3 else if b = 240 then some 4 else if b = 248 then some 5
  else if b = 252 then some 6 else if b = 254 then some 7 else none

/-- Go `net.simpleMaskLength`: the prefix length of a canonical CIDR mask. -/
def simpleMaskLengthAux : List Nat → Nat → Option Nat
  | [], n => some n
  | b :: rest, n =>
    if b = 255 then simpleMaskLengthAux rest (n + 8)
    else
      match prefixOnes b with
      | none => none
      | some k => if rest.all (· = 0) then some (n + k) else none

/-- Go `net.simpleMaskLength`. -/
def simpleMaskLength (m : List Nat) : Option Nat := simpleMaskLengthAux m 0

/-- Go `net.IPMask.String`: hex bytes, `"<nil>"` when empty. -/
def maskString (m : List Nat) : GoStr :=
  if m = [] then '<' :: 'n' :: 'i' :: 'l' :: '>' :: [] else hexString m

/-- Go `net.IPNet.String` on a non-nil network: network number, `'/'`, and
either the prefix length or the hex mask. -/
def ipnetString (n : GoIPNet) : GoStr :=
  match networkNumberAndMask n with
  | none => '<' :: 'n' :: 'i' :: 'l' :: '>' :: []
  | some (nn, m) =>
    match simpleMaskLength m with
    | none => ipString nn ++ '/' :: maskString m
    | some l => ipString nn ++ '/' :: uitoa l

/-- Go `net.IPNet.String` through a possibly-nil pointer: a nil `*net.IPNet`
prints as `"<nil>"` (the method checks its receiver). -/
def optNetString : Option GoIPNet → GoStr
  | none => '<' :: 'n' :: 'i' :: 'l' :: '>' :: []
  | some n => ipnetString n

/-- Go `net.CIDRMask` byte builder. -/
def cidrMaskBytes : Nat → Nat → List Nat
  | 0, _ => []
  | l + 1, n =>
    if 8 ≤ n then 255 :: cidrMaskBytes l (n - 8)
    else (255 - (255 >>> n)) :: cidrMaskBytes l 0

/-- Go `net.CIDRMask`. -/
def cidrMask (ones bits : Nat) : List Nat :=
  if bits ≠ 32 ∧ bits ≠ 128 then [] else if bits < ones then []
  else cidrMaskBytes (bits / 8) ones

/-- Go `net.IP.Mask`: align a 16-byte mask or a v4-mapped address down to 4
bytes, then mask byte-wise. -/
def maskIP (ip0 : GoIP) (mask0 : List Nat) : GoIP :=
  let mask := if mask0.length = 16 ∧ ip0.length = 4 ∧ mask0.take 12 = List.replicate 12 255
    then mask0.drop 12 else mask0
  let ip := if mask.length = 4 ∧ ip0.length = 16 ∧ ip0.take 12 = v4MappedHead
    then ip0.drop 12 else ip0
  if ip.length ≠ mask.length then []
  else ip.zipWith (fun a b => a.land b) mask

/-- Index of the first `'/'`, for `net.ParseCIDR`. -/
def indexOfChar (c : Char) : GoStr → Option Nat
  | [] => none
  | x :: xs => if x = c then some 0 else (indexOfChar c xs).map (· + 1)

/-- Go `net.ParseCIDR`: split at `'/'`, parse the address (v4 first, then
v6), parse the whole mask part as a decimal prefix length bounded by the
address width, and return the masked network. -/
def parseCIDR (s : GoStr) : Except String GoIPNet :=
  match indexOfChar '/' s with
  | none => .error "invalid CIDR address"
  | some i =>
    let addr := s.take i
    let maskStr := s.drop (i + 1)
    let (ip, iplen) :=
      match parseIPv4 addr with
      | some ip => (some ip, 4)
      | none => (parseIPv6Zone addr, 16)
    let (n, k, ok) := dtoi maskStr
    match ip with
    | none => .error "invalid CIDR address"
    | some ip =>
      if ¬ ok ∨ k ≠ maskStr.length ∨ 8 * iplen < n then .error "invalid CIDR address"
      else
        let m := cidrMask n (8 * iplen)
        .ok ⟨maskIP ip m, m⟩

/-- The network ACL `BasicNet` of netallow_net.go: a mutex plus a slice of
`*net.IPNet`.  Entries are pointers and may be `nil` (which
`UnmarshalJSON` can produce), modelled as `Option GoIPNet`. -/
structure BasicNet where
  allowed : List (Option GoIPNet)
deriving DecidableEq

/-- Scan loop of Go `BasicNet.Permitted`: first containing entry wins.
Calling `Contains` through a nil entry dereferences a nil pointer, so the
result is `none`, modelling the panic. -/
def permLoop : List (Option GoIPNet) → GoIP → Option Bool
  | [], _ => some false
  | none :: _, _ => none
  | some n :: rest, ip => if ipnetContains n ip then some true else permLoop rest ip

/-- Go `BasicNet.Permitted`: invalid lengths are rejected before the scan
(so they never reach a nil entry). -/
def BasicNet.permitted (acl : BasicNet) (ip : GoIP) : Option Bool :=
  if ¬ validIP ip then some false
  else permLoop acl.allowed ip

/-- Go `BasicNet.Add`: no-op for a nil argument, otherwise append (no
overlap detection). -/
def BasicNet.addNet (acl : BasicNet) (n : Option GoIPNet) : BasicNet :=
  match n with
  | none => acl
  | some _ => ⟨acl.allowed ++ [n]⟩

/-- Removal of the first entry whose `String()` equals the target
(`String()` is nil-safe, so nil entries just compare as `"<nil>"`). -/
def removeFirst : List (Option GoIPNet) → GoStr → List (Option GoIPNet)
  | [], _ => []
  | e :: rest, tgt => if optNetString e = tgt then rest else e :: removeFirst rest tgt

/-- Go `BasicNet.Remove`: no-op for nil; otherwise delete the first entry
with textually equal `String()` form, if any. -/
def BasicNet.removeNet (acl : BasicNet) (n : Option GoIPNet) : BasicNet :=
  match n with
  | none => acl
  | some nn => ⟨removeFirst acl.allowed (ipnetString nn)⟩

/-- Go `NewBasicNet`: the empty network ACL. -/
def newBasicNet : BasicNet := ⟨[]⟩

/-- Token loop of Go `BasicNet.UnmarshalJSON`: the slice is preallocated to
the token count, blank tokens are skipped and leave a `nil` entry behind,
and the first `ParseCIDR` failure aborts. -/
def netLoop : List GoStr → Except String (List (Option GoIPNet))
  | [] => .ok []
  | t :: ts =>
    let addr := trimSpace t
    if addr = [] then (netLoop ts).map (fun l => none :: l)
    else
      match parseCIDR addr with
      | .error e => .error e
      | .ok n => (netLoop ts).map (fun l => some n :: l)

/-- Go `BasicNet.UnmarshalJSON` (netallow_net.go), with the same panic model
as the host version: the empty input panics on `in[0]` and the single `"`
input panics on the slice `in[1:0]`.  On a parse error the slice is set to
`nil` (the empty list). -/
def BasicNet.unmarshalJSON (acl : BasicNet) (inp : GoStr) :
    Option (BasicNet × Option String) :=
  match inp with
  | [] => none
  | c :: rest =>
    if c ≠ '"' ∨ inp.getLast? ≠ some '"' then some (acl, some "allowed: invalid allowed")
    else if rest = [] then none
    else
      match netLoop (splitOnChar ',' (trimSpace ((inp.drop 1).dropLast))) with
      | .error e => some (⟨[]⟩, some e)
      | .ok l => some (⟨l⟩, none)

/-- Index of the last occurrence of a character (Go `last`). -/
def lastIndexOfAux (c : Char) : GoStr → Nat → Option Nat → Option Nat
  | [], _, best => best
  | x :: xs, i, best => lastIndexOfAux c xs (i + 1) (if x = c then some i else best)

/-- Index of the last occurrence of a character. -/
def lastIndexOf (c : Char) (s : GoStr) : Option Nat := lastIndexOfAux c s 0 none

/-- Go `net.SplitHostPort`. -/
def splitHostPort (hp : GoStr) : Except String (GoStr × GoStr) :=
  match lastIndexOf ':' hp with
  | none => .error "missing port in address"
  | some i =>
    let finish (host : GoStr) (j k : Nat) : Except String (GoStr × GoStr) :=
      if decide ('[' ∈ hp.drop j) then .error "unexpected bracket in address"
      else if decide (']' ∈ hp.drop k) then .error "unexpected bracket in address"
      else .ok (host, hp.drop (i + 1))
    if hp.headI = '[' ∧ hp ≠ [] then
      match indexOfChar ']' hp with
      | none => .error "missing bracket in address"
      | some e =>
        if e + 1 = hp.length then .error "missing port in address"
        else if e + 1 = i then finish ((hp.take e).drop 1) 1 (e + 1)
        else if (hp.drop (e + 1)).headI = ':' then .error "too many colons in address"
        else .error "missing port in address"
    else
      let host := hp.take i
      if decide (':' ∈ host) then .error "too many colons in address"
      else finish host 0 0

/-- Go `HTTPRequestLookup.Address` (lookup.go, current revision) after the
argument validation, as a function of the request's `RemoteAddr` string:
split host and port, then `ParseIP` the host, failing with the no-address
error when parsing yields nothing. -/
def httpRequestAddress (remoteAddr : GoStr) : Except String GoIP :=
  match splitHostPort remoteAddr with
  | .error e => .error e
  | .ok (host, _) =>
    match parseIP host with
    | none => .error "whitelist: no address found"
    | some ip => .ok ip

/-- Go `NetConnLookup.Address` (lookup.go, current revision) after the
argument validation, as a function of the connection's remote address
string; the body is the same split-and-parse sequence. -/
def netConnAddress (remoteAddr : GoStr) : Except String GoIP :=
  match splitHostPort remoteAddr with
  | .error e => .error e
  | .ok (host, _) =>
    match parseIP host with
    | none => .error "whitelist: no address found"
    | some ip => .ok ip

/-- The observable per-request outcome of the gate middleware
(`Handler.ServeHTTP`). -/
inductive ServeOutcome where
  | internalError (status : Nat)
  | allowDispatched
  | denyDispatched
  | unauthorized (status : Nat)
deriving DecidableEq

/-- The middleware state that `ServeHTTP` consults: whether a deny handler
is configured and the ACL's decision predicate (the allow handler is always
present and is only ever dispatched to, so it needs no further state). -/
structure GateHandler where
  hasDeny : Bool
  permitted : GoIP → Bool

/-- Go `Handler.ServeHTTP` (lookup.go): a lookup error yields the
internal-error status and halts; otherwise the ACL decides, a false decision
goes to the deny handler when present and to the unauthorized status when
not.  `ip`/`err` are the two results of `lookup.Address(req)`. -/
def serveHTTP (h : GateHandler) (ip : GoIP) (err : Option String) : ServeOutcome :=
  if err.isSome then .internalError 500
  else if h.permitted ip then .allowDispatched
  else if h.hasDeny then .denyDispatched
  else .unauthorized 401

/-- Modelled from the spec: the construction contract `NewHandler` /
`NewHandlerFunc` lives in the repository's http.go, which is absent from
the sources at hand (only its tests are present); spec 4.5 states that
construction fails with a config error when the ACL or the allow handler is
absent and otherwise succeeds, the deny handler being optional.  Presence
of the two handlers is modelled by `Bool`s, the ACL by an optional decision
predicate. -/
def newHandler (allowPresent denyPresent : Bool) (acl : Option (GoIP → Bool)) :
    Except String GateHandler :=
  match acl with
  | none => .error "netallow: ACL cannot be nil"
  | some p =>
    if ¬ allowPresent then .error "netallow: allow cannot be nil"
    else .ok ⟨denyPresent, p⟩

/-! ### Helper lemmas -/

theorem mem_insertKey_self (l : List GoStr) (s : GoStr) : s ∈ insertKey l s := by
  unfold insertKey
  split
  · assumption
  · simp

theorem mem_insertKey (l : List GoStr) (s t : GoStr) :
    t ∈ insertKey l s ↔ t ∈ l ∨ t = s := by
  unfold insertKey
  split
  · rename_i h
    constructor
    · exact Or.inl
    · rintro (ht | rfl) <;> [exact ht; exact h]
  · simp

theorem add_permitted_of_eq_string (acl : Basic) (ip1 ip2 : GoIP)
    (h1 : validIP ip1 = true) (h2 : validIP ip2 = true)
    (hs : ipString ip2 = ipString ip1) :
    (acl.add ip1).permitted ip2 = true := by
  unfold Basic.add Basic.permitted
  simp [h1, h2, hs, mem_insertKey_self]

end Netallow

namespace Netallow

/-! ### C1: the gate middleware fails closed -/

/-- C1.  For every request, an address-extraction error makes `ServeHTTP`
answer with the internal-error status 500 and halt — the outcome is fixed no
matter what the ACL would decide, and neither the allow nor the deny handler
is dispatched; and when extraction succeeds, the ACL decides false and no
deny handler is configured, the outcome is the unauthorized status 401,
never the allow handler. -/
theorem gate_fail_closed (h : GateHandler) (ip : GoIP) (e : String) :
    serveHTTP h ip (some e) = .internalError 500
    ∧ serveHTTP h ip (some e) ≠ .allowDispatched
    ∧ serveHTTP h ip (some e) ≠ .denyDispatched
    ∧ (h.permitted ip = false → h.hasDeny = false →
        serveHTTP h ip none = .unauthorized 401) := by
  refine ⟨rfl, by simp [serveHTTP], by simp [serveHTTP], fun hp hd => ?_⟩
  simp [serveHTTP, hp, hd]

/-- Witness for C1 at a concrete denied request. -/
theorem gate_fail_closed_witness :
    serveHTTP ⟨false, fun _ => false⟩ [127, 0, 0, 1] (some "boom") = .internalError 500
    ∧ serveHTTP ⟨false, fun _ => false⟩ [127, 0, 0, 1] none = .unauthorized 401 :=
  ⟨(gate_fail_closed ⟨false, fun _ => false⟩ [127, 0, 0, 1] "boom").1,
   (gate_fail_closed ⟨false, fun _ => false⟩ [127, 0, 0, 1] "boom").2.2.2 rfl rfl⟩

/-! ### C2: add/remove/membership on the host ACL -/

/-- C2.  For every address passing length validation: after `Add` the
address is `Permitted`; after `Remove` it is not; and `Remove` of an absent
address leaves the ACL unchanged. -/
theorem host_add_remove (acl : Basic) (ip : GoIP) (h : validIP ip = true) :
    (acl.add ip).permitted ip = true
    ∧ (acl.remove ip).permitted ip = false
    ∧ (acl.permitted ip = false → acl.remove ip = acl) := by
  refine ⟨add_permitted_of_eq_string acl ip ip h h rfl, ?_, ?_⟩
  · unfold Basic.remove Basic.permitted
    simp [h, List.mem_filter]
  · intro habs
    unfold Basic.permitted at habs
    simp [h] at habs
    unfold Basic.remove
    rw [if_neg (by simp [h])]
    have hfilter : acl.allowed.filter (fun s => decide (s ≠ ipString ip)) = acl.allowed :=
      List.filter_eq_self.mpr fun a ha => by
        simp only [decide_eq_true_eq]
        exact fun hcontra => habs (hcontra ▸ ha)
    rw [hfilter]

/-- Witness for C2 at `127.0.0.1` on the empty ACL. -/
theorem host_add_remove_witness :
    (newBasic.add [127, 0, 0, 1]).permitted [127, 0, 0, 1] = true
    ∧ (newBasic.remove [127, 0, 0, 1]).permitted [127, 0, 0, 1] = false
    ∧ newBasic.remove [127, 0, 0, 1] = newBasic :=
  ⟨(host_add_remove newBasic [127, 0, 0, 1] (by decide)).1,
   (host_add_remove newBasic [127, 0, 0, 1] (by decide)).2.1,
   (host_add_remove newBasic [127, 0, 0, 1] (by decide)).2.2 (by decide)⟩

/-! ### C3: invalid addresses never match and never store -/

/-- C3.  For every address failing length validation, `Permitted` is false
on any ACL state (hence regardless of prior `Add` calls) and `Add` leaves
the ACL unchanged. -/
theorem host_invalid_address (acl : Basic) (ip : GoIP) (h : validIP ip = false) :
    acl.permitted ip = false ∧ acl.add ip = acl := by
  constructor
  · unfold Basic.permitted
    simp [h]
  · unfold Basic.add
    simp [h]

/-- Witness for C3 at a 3-byte slice. -/
theorem host_invalid_address_witness :
    Basic.permitted ⟨[('1' :: '.' :: '2' :: '.' :: '3' :: [])]⟩ [1, 2, 3] = false
    ∧ Basic.add ⟨[('1' :: '.' :: '2' :: '.' :: '3' :: [])]⟩ [1, 2, 3]
        = ⟨[('1' :: '.' :: '2' :: '.' :: '3' :: [])]⟩ :=
  host_invalid_address ⟨[('1' :: '.' :: '2' :: '.' :: '3' :: [])]⟩ [1, 2, 3] (by decide)

/-! ### C7: middleware construction contract (spec-modelled) -/

/-- C7.  Construction fails with the config error when the ACL or the allow
handler is absent; a nil deny handler is accepted, and the resulting
middleware answers a denied address with the unauthorized status 401. -/
theorem handler_construction (p : GoIP → Bool) (ip : GoIP) (deny : Bool)
    (hdeny : p ip = false) :
    newHandler true deny none = .error "netallow: ACL cannot be nil"
    ∧ newHandler false deny none = .error "netallow: ACL cannot be nil"
    ∧ newHandler false deny (some p) = .error "netallow: allow cannot be nil"
    ∧ newHandler true false (some p) = .ok ⟨false, p⟩
    ∧ serveHTTP ⟨false, p⟩ ip none = .unauthorized 401 := by
  refine ⟨rfl, rfl, rfl, rfl, ?_⟩
  simp [serveHTTP, hdeny]

/-- Witness for C7 with the always-deny predicate. -/
theorem handler_construction_witness :
    newHandler true true none = .error "netallow: ACL cannot be nil"
    ∧ newHandler true false (some fun _ => false) = .ok ⟨false, fun _ => false⟩
    ∧ serveHTTP ⟨false, fun _ => false⟩ [127, 0, 0, 1] none = .unauthorized 401 :=
  ⟨(handler_construction (fun _ => false) [127, 0, 0, 1] true rfl).1,
   (handler_construction (fun _ => false) [127, 0, 0, 1] true rfl).2.2.2.1,
   (handler_construction (fun _ => false) [127, 0, 0, 1] true rfl).2.2.2.2⟩

/-! ### C8: v4 and v4-mapped-v6 representations share one identity -/

/-- Go's `net.IP.String` prints the 16-byte v4-mapped form of a quad exactly
as its 4-byte form, so both representations map to the same ACL key. -/
theorem ipString_v4_mapped (a b c d : Nat) :
    ipString (v4MappedHead ++ [a, b, c, d]) = ipString [a, b, c, d] := by
  simp only [ipString, v4MappedHead, to4]
  norm_num
  simp

/-- Counterexample to C8: adding the 4-byte localhost makes `Permitted` of
its 16-byte v4-mapped representation true — the two representations are not
distinct identities. -/
theorem v4_mapped_counterexample :
    (newBasic.add [127, 0, 0, 1]).permitted
      [0, 0, 0, 0, 0, 0, 0, 0, 0, 0, 255, 255, 127, 0, 0, 1] = true := by decide

/-- C8 amended.  The 4-byte form and the 16-byte v4-mapped form of the same
quad are one identity: adding either makes `Permitted` of the other true.
Genuinely different-family addresses stay distinct: storing the IPv4
localhost never matches the IPv6 localhost `::1`. -/
theorem v4_mapped_same_identity :
    (∀ (a b c d : Nat) (acl : Basic),
      (acl.add [a, b, c, d]).permitted (v4MappedHead ++ [a, b, c, d]) = true
      ∧ (acl.add (v4MappedHead ++ [a, b, c, d])).permitted [a, b, c, d] = true)
    ∧ (newBasic.add [127, 0, 0, 1]).permitted (List.replicate 15 0 ++ [1]) = false := by
  refine ⟨fun a b c d acl => ⟨?_, ?_⟩, by decide⟩
  · exact add_permitted_of_eq_string acl _ _ rfl rfl (ipString_v4_mapped a b c d)
  · exact add_permitted_of_eq_string acl _ _ rfl rfl (ipString_v4_mapped a b c d).symm

/-! ### C4: network ACL removal matches textually, never by overlap -/

theorem removeFirst_eq_self (l : List (Option GoIPNet)) (tgt : GoStr)
    (h : ∀ x ∈ l, optNetString x ≠ tgt) : removeFirst l tgt = l := by
  induction l with
  | nil => rfl
  | cons e rest ih =>
    unfold removeFirst
    rw [if_neg (h e (List.mem_cons_self _ _)),
      ih fun x hx => h x (List.mem_cons_of_mem _ hx)]

theorem removeFirst_append (l1 l2 : List (Option GoIPNet)) (e : Option GoIPNet)
    (tgt : GoStr) (h1 : ∀ x ∈ l1, optNetString x ≠ tgt) (he : optNetString e = tgt) :
    removeFirst (l1 ++ e :: l2) tgt = l1 ++ l2 := by
  induction l1 with
  | nil => simp [removeFirst, he]
  | cons x xs ih =>
    simp only [List.cons_append]
    unfold removeFirst
    rw [if_neg (h1 x (List.mem_cons_self _ _)),
      ih fun y hy => h1 y (List.mem_cons_of_mem _ hy)]

/-- C4.  Adding `10.0.0.0/8` makes `10.1.2.3` permitted and removing
`10.0.0.0/16` afterwards leaves it permitted (no subsumption); in general
`Remove` deletes exactly the first stored entry whose `String()` form equals
its argument's, and is a no-op when no entry matches textually — so it never
removes merely overlapping or contained networks. -/
theorem netacl_remove_exact_match (n8' n16' : GoIPNet) (acl : BasicNet) (n : GoIPNet)
    (l1 l2 : List (Option GoIPNet)) (e : Option GoIPNet)
    (h8 : parseCIDR ("10.0.0.0/8".data) = .ok n8')
    (h16 : parseCIDR ("10.0.0.0/16".data) = .ok n16')
    (hnone : ∀ x ∈ acl.allowed, optNetString x ≠ ipnetString n)
    (hfirst : ∀ x ∈ l1, optNetString x ≠ ipnetString n)
    (he : optNetString e = ipnetString n) :
    ((newBasicNet.addNet (some n8')).permitted [10, 1, 2, 3] = some true
      ∧ ((newBasicNet.addNet (some n8')).removeNet (some n16')).permitted [10, 1, 2, 3]
          = some true)
    ∧ acl.removeNet (some n) = acl
    ∧ BasicNet.removeNet ⟨l1 ++ e :: l2⟩ (some n) = ⟨l1 ++ l2⟩ := by
  have e8 : n8' = ⟨[10, 0, 0, 0], [255, 0, 0, 0]⟩ := by
    have hc : parseCIDR ("10.0.0.0/8".data)
        = .ok (⟨[10, 0, 0, 0], [255, 0, 0, 0]⟩ : GoIPNet) := by decide
    rw [hc] at h8
    exact (Except.ok.inj h8).symm
  have e16 : n16' = ⟨[10, 0, 0, 0], [255, 255, 0, 0]⟩ := by
    have hc : parseCIDR ("10.0.0.0/16".data)
        = .ok (⟨[10, 0, 0, 0], [255, 255, 0, 0]⟩ : GoIPNet) := by decide
    rw [hc] at h16
    exact (Except.ok.inj h16).symm
  subst e8
  subst e16
  refine ⟨⟨by decide, by decide⟩, ?_, ?_⟩
  · simp only [BasicNet.removeNet]
    rw [removeFirst_eq_self _ _ hnone]
  · simp only [BasicNet.removeNet]
    rw [removeFirst_append _ _ _ _ hfirst he]

/-- Witness for C4: the concrete `10.0.0.0/8` / `10.0.0.0/16` scenario plus
a textually matching removal. -/
theorem netacl_remove_exact_match_witness :
    ((newBasicNet.addNet (some ⟨[10, 0, 0, 0], [255, 0, 0, 0]⟩)).permitted [10, 1, 2, 3]
        = some true
      ∧ ((newBasicNet.addNet (some ⟨[10, 0, 0, 0], [255, 0, 0, 0]⟩)).removeNet
          (some ⟨[10, 0, 0, 0], [255, 255, 0, 0]⟩)).permitted [10, 1, 2, 3] = some true)
    ∧ BasicNet.removeNet ⟨[some ⟨[10, 0, 0, 0], [255, 0, 0, 0]⟩]⟩
        (some ⟨[10, 0, 0, 0], [255, 255, 0, 0]⟩) = ⟨[some ⟨[10, 0, 0, 0], [255, 0, 0, 0]⟩]⟩
    ∧ BasicNet.removeNet ⟨[some ⟨[10, 0, 0, 0], [255, 0, 0, 0]⟩]
          ++ some ⟨[10, 0, 0, 0], [255, 255, 0, 0]⟩ :: []⟩
        (some ⟨[10, 0, 0, 0], [255, 255, 0, 0]⟩)
        = ⟨[some ⟨[10, 0, 0, 0], [255, 0, 0, 0]⟩] ++ []⟩ :=
  netacl_remove_exact_match ⟨[10, 0, 0, 0], [255, 0, 0, 0]⟩ ⟨[10, 0, 0, 0], [255, 255, 0, 0]⟩
    ⟨[some ⟨[10, 0, 0, 0], [255, 0, 0, 0]⟩]⟩ ⟨[10, 0, 0, 0], [255, 255, 0, 0]⟩
    [some ⟨[10, 0, 0, 0], [255, 0, 0, 0]⟩] [] (some ⟨[10, 0, 0, 0], [255, 255, 0, 0]⟩)
    (by decide) (by decide) (by decide) (by decide) (by decide)

/-! ### C5: all-or-nothing decoding -/

theorem hostLoop_error (ts : List GoStr) : ∀ acc : List GoStr,
    (∃ t ∈ ts, trimSpace t ≠ [] ∧ parseIP (trimSpace t) = none) →
    ∃ e, hostLoop ts acc = .error e := by
  induction ts with
  | nil => intro acc h; simp at h
  | cons t ts ih =>
    intro acc h
    obtain ⟨u, hu, hne, hp⟩ := h
    rcases List.mem_cons.mp hu with rfl | hmem
    · unfold hostLoop
      rw [if_neg hne, hp]
      exact ⟨_, rfl⟩
    · unfold hostLoop
      by_cases hb : trimSpace t = []
      · rw [if_pos hb]
        exact ih acc ⟨u, hmem, hne, hp⟩
      · rw [if_neg hb]
        cases hq : parseIP (trimSpace t) with
        | none => exact ⟨_, rfl⟩
        | some ip => exact ih _ ⟨u, hmem, hne, hp⟩

theorem loadLoop_error (ls : List GoStr) : ∀ acl : Basic,
    (∃ l ∈ ls, parseIP l = none) → ∃ e, loadLoop ls acl = .error e := by
  induction ls with
  | nil => intro acl h; simp at h
  | cons s ls ih =>
    intro acl h
    obtain ⟨u, hu, hp⟩ := h
    rcases List.mem_cons.mp hu with rfl | hmem
    · unfold loadLoop
      rw [hp]
      exact ⟨_, rfl⟩
    · unfold loadLoop
      cases hq : parseIP s with
      | none => exact ⟨_, rfl⟩
      | some ip => exact ih _ ⟨u, hmem, hp⟩

/-- Counterexample to C5: the wire input `"127.0.0.1,"` contains the comma
token `""`, which does not parse as an address, yet `UnmarshalJSON` succeeds
and populates the ACL — blank tokens are skipped, not treated as parse
failures. -/
theorem wire_blank_token_counterexample :
    ([] : GoStr) ∈ splitOnChar ','
        (trimSpace ((("\"127.0.0.1,\"".data).drop 1).dropLast))
    ∧ parseIP ([] : GoStr) = none
    ∧ Basic.unmarshalJSON newBasic ("\"127.0.0.1,\"".data)
        = some (⟨["127.0.0.1".data]⟩, none) := by decide

/-- C5 amended.  Wire-form decode: any token that is non-blank after
trimming and fails to parse aborts the whole decode with a validation error
and leaves the member map cleared (blank tokens are skipped).  Flat-file
decode: any line that fails to parse — blank lines included — aborts with an
error, and no ACL is returned at all. -/
theorem decode_all_or_nothing (inp : GoStr) (acl : Basic)
    (hq : 2 ≤ inp.length ∧ inp.headI = '"' ∧ inp.getLast? = some '"')
    (hbad : ∃ t ∈ splitOnChar ',' (trimSpace ((inp.drop 1).dropLast)),
      trimSpace t ≠ [] ∧ parseIP (trimSpace t) = none) :
    (∃ e, Basic.unmarshalJSON acl inp = some (⟨[]⟩, some e))
    ∧ (∀ inp2 : GoStr, (∃ l ∈ splitOnChar '\n' inp2, parseIP l = none) →
        ∃ e, loadBasic inp2 = .error e) := by
  constructor
  · cases inp with
    | nil => simp at hq
    | cons c rest =>
      obtain ⟨hlen, hhead, hlast⟩ := hq
      have hc : c = '"' := by simpa [List.headI] using hhead
      subst hc
      have hrest : rest ≠ [] := by
        intro h
        subst h
        simp at hlen
      obtain ⟨e, he⟩ := hostLoop_error _ [] hbad
      refine ⟨e, ?_⟩
      simp only [Basic.unmarshalJSON]
      rw [if_neg (by simp [hlast]), if_neg hrest, he]
  · intro inp2 h2
    obtain ⟨e, he⟩ := loadLoop_error _ newBasic h2
    refine ⟨e, ?_⟩
    unfold loadBasic
    rw [he]

/-- Witness for C5 at the spec's own example line `192.168.2`. -/
theorem decode_all_or_nothing_witness :
    (∃ e, Basic.unmarshalJSON newBasic ("\"192.168.2\"".data) = some (⟨[]⟩, some e))
    ∧ (∃ e, loadBasic ("192.168.1.5\n192.168.2.3\n192.168.2\n192.168.3.1".data)
        = .error e) :=
  ⟨(decode_all_or_nothing ("\"192.168.2\"".data) newBasic (by decide) (by decide)).1,
   (decode_all_or_nothing ("\"192.168.2\"".data) newBasic (by decide) (by decide)).2
     ("192.168.1.5\n192.168.2.3\n192.168.2\n192.168.3.1".data) (by decide)⟩

/-! ### C9: extraction fails rather than succeeding without an address -/

theorem parseIPv4_ne_nil (s : GoStr) (b : GoIP) (h : parseIPv4 s = some b) : b ≠ [] := by
  unfold parseIPv4 at h
  rw [Option.map_eq_some'] at h
  obtain ⟨q, _, rfl⟩ := h
  simp [v4InV6, v4MappedHead]

theorem parseIPv6Post_ne_nil (r : Option (List Nat × Option Nat × GoStr)) (b : GoIP)
    (h : parseIPv6Post r = some b) : b ≠ [] := by
  match r with
  | none => simp [parseIPv6Post] at h
  | some (acc, ell, leftover) =>
    simp only [parseIPv6Post] at h
    by_cases hl : leftover ≠ []
    · simp [hl] at h
    · rw [if_neg (by simpa using hl)] at h
      by_cases hlen : acc.length < 16
      · rw [if_pos hlen] at h
        match ell with
        | none => simp at h
        | some e =>
          simp only [Option.some.injEq] at h
          subst h
          intro hb
          rcases List.append_eq_nil.mp hb with ⟨h2, -⟩
          rcases List.append_eq_nil.mp h2 with ⟨-, h3⟩
          have : 16 - acc.length = 0 := by
            simpa [List.replicate_eq_nil_iff] using h3
          omega
      · rw [if_neg hlen] at h
        match ell with
        | some e => simp at h
        | none =>
          simp only [Option.some.injEq] at h
          subst h
          intro hb
          rw [hb] at hlen
          simp at hlen

theorem parseIPv6Core_ne_nil (s : GoStr) (b : GoIP) (h : parseIPv6Core s = some b) :
    b ≠ [] := by
  unfold parseIPv6Core at h
  split at h
  · split at h
    · simp only [Option.some.injEq] at h
      subst h
      simp
    · exact parseIPv6Post_ne_nil _ _ h
  · exact parseIPv6Post_ne_nil _ _ h

theorem parseIPAux_ne_nil (full : GoStr) :
    ∀ (l : GoStr) (b : GoIP), parseIPAux full l = some b → b ≠ []
  | [], b, h => by simp [parseIPAux] at h
  | c :: cs, b, h => by
    unfold parseIPAux at h
    split at h
    · exact parseIPv4_ne_nil full b h
    · split at h
      · unfold parseIPv6Zone at h
        exact parseIPv6Core_ne_nil _ b h
      · exact parseIPAux_ne_nil full cs b h

theorem parseIP_ne_nil (s : GoStr) (b : GoIP) (h : parseIP s = some b) : b ≠ [] :=
  parseIPAux_ne_nil s s b h

/-- C9.  When the remote-address string splits into host and port but the
host does not parse as an address, both extractors fail with the no-address
error instead of returning a nil address with a nil error; and whenever
either extractor reports success, the produced address is non-nil. -/
theorem lookup_no_address (ra host port : GoStr)
    (hs : splitHostPort ra = .ok (host, port))
    (hp : parseIP host = none) :
    httpRequestAddress ra = .error "whitelist: no address found"
    ∧ netConnAddress ra = .error "whitelist: no address found"
    ∧ (∀ (ra2 : GoStr) (ip : GoIP), httpRequestAddress ra2 = .ok ip → ip ≠ [])
    ∧ (∀ (ra2 : GoStr) (ip : GoIP), netConnAddress ra2 = .ok ip → ip ≠ []) := by
  have hok : ∀ (ra2 : GoStr) (ip : GoIP), httpRequestAddress ra2 = .ok ip → ip ≠ [] := by
    intro ra2 ip h
    unfold httpRequestAddress at h
    split at h
    · exact absurd h (by simp)
    · split at h
      · exact absurd h (by simp)
      · rename_i hip2
        obtain rfl := Except.ok.inj h
        exact parseIP_ne_nil _ _ hip2
  have hfun : netConnAddress = httpRequestAddress := rfl
  refine ⟨?_, ?_, hok, by rw [hfun]; exact hok⟩
  · unfold httpRequestAddress
    simp only [hs, hp]
  · unfold netConnAddress
    simp only [hs, hp]

/-- Witness for C9 at the remote address `bogus:80`. -/
theorem lookup_no_address_witness :
    httpRequestAddress ("bogus:80".data) = .error "whitelist: no address found"
    ∧ netConnAddress ("bogus:80".data) = .error "whitelist: no address found" :=
  ⟨(lookup_no_address ("bogus:80".data) ("bogus".data) ("80".data)
      (by decide) (by decide)).1,
   (lookup_no_address ("bogus:80".data) ("bogus".data) ("80".data)
      (by decide) (by decide)).2.1⟩

/-! ### C10: decode totality and nil entries -/

theorem netLoop_all_entries (ts : List GoStr) : ∀ l, netLoop ts = .ok l →
    (∀ t ∈ ts, trimSpace t ≠ []) → ∀ e ∈ l, e.isSome = true := by
  induction ts with
  | nil =>
    intro l h _ e he
    simp only [netLoop] at h
    obtain rfl : ([] : List (Option GoIPNet)) = l := Except.ok.inj h
    simp at he
  | cons t ts ih =>
    intro l h hnb e he
    unfold netLoop at h
    rw [if_neg (hnb t (List.mem_cons_self _ _))] at h
    cases hc : parseCIDR (trimSpace t) with
    | error e2 => rw [hc] at h; simp at h
    | ok n =>
      rw [hc] at h
      cases hn : netLoop ts with
      | error e2 => rw [hn] at h; simp [Except.map] at h
      | ok l2 =>
        rw [hn] at h
        simp only [Except.map] at h
        obtain rfl : some n :: l2 = l := Except.ok.inj h
        rcases List.mem_cons.mp he with rfl | hmem
        · rfl
        · exact ih l2 hn (fun u hu => hnb u (List.mem_cons_of_mem _ hu)) e hmem

theorem permLoop_isSome (l : List (Option GoIPNet)) (ip : GoIP)
    (h : ∀ e ∈ l, e.isSome = true) : (permLoop l ip).isSome = true := by
  induction l with
  | nil => rfl
  | cons e rest ih =>
    cases e with
    | none => exact absurd (h none (List.mem_cons_self _ _)) (by simp)
    | some n =>
      unfold permLoop
      split
      · rfl
      · exact ih fun x hx => h x (List.mem_cons_of_mem _ hx)

theorem unmarshalHost_isSome (acl : Basic) (inp : GoStr)
    (h0 : inp ≠ []) (h1 : inp ≠ ['"']) : (Basic.unmarshalJSON acl inp).isSome = true := by
  cases inp with
  | nil => exact absurd rfl h0
  | cons c rest =>
    simp only [Basic.unmarshalJSON]
    by_cases hq : c ≠ '"' ∨ (c :: rest).getLast? ≠ some '"'
    · rw [if_pos hq]; rfl
    · rw [if_neg hq]
      push_neg at hq
      have hr : rest ≠ [] := by
        intro h
        subst h
        exact h1 (by rw [hq.1])
      rw [if_neg hr]
      split <;> rfl

theorem unmarshalNet_isSome (acl : BasicNet) (inp : GoStr)
    (h0 : inp ≠ []) (h1 : inp ≠ ['"']) : (BasicNet.unmarshalJSON acl inp).isSome = true := by
  cases inp with
  | nil => exact absurd rfl h0
  | cons c rest =>
    simp only [BasicNet.unmarshalJSON]
    by_cases hq : c ≠ '"' ∨ (c :: rest).getLast? ≠ some '"'
    · rw [if_pos hq]; rfl
    · rw [if_neg hq]
      push_neg at hq
      have hr : rest ≠ [] := by
        intro h
        subst h
        exact h1 (by rw [hq.1])
      rw [if_neg hr]
      split <;> rfl

/-- Counterexample to C10: `UnmarshalJSON` on the empty byte slice panics
(`in[0]` is out of range) for both ACL families, and decoding the payload
`"10.0.0.0/8,"` succeeds while leaving a nil entry in the network list, so a
subsequent `Permitted` of the valid address `11.0.0.1` dereferences a nil
pointer and panics. -/
theorem unmarshal_panic_counterexample :
    Basic.unmarshalJSON newBasic [] = none
    ∧ BasicNet.unmarshalJSON newBasicNet [] = none
    ∧ BasicNet.unmarshalJSON newBasicNet ("\"10.0.0.0/8,\"".data)
        = some (⟨[some ⟨[10, 0, 0, 0], [255, 0, 0, 0]⟩, none]⟩, none)
    ∧ BasicNet.permitted ⟨[some ⟨[10, 0, 0, 0], [255, 0, 0, 0]⟩, none]⟩ [11, 0, 0, 1]
        = none := by decide

/-- C10 amended.  `UnmarshalJSON` panics exactly on the empty slice and the
single-quote-character slice; on every other input it returns (an error or
success) without panicking, for host and network ACLs alike.  After a
successful network decode whose tokens are all non-blank the stored list has
no nil entries, and `Permitted` on a list without nil entries terminates
normally for every address. -/
theorem unmarshal_total_and_safe :
    (∀ (acl : Basic) (inp : GoStr), inp ≠ [] → inp ≠ ['"'] →
      (Basic.unmarshalJSON acl inp).isSome = true)
    ∧ (∀ (acl : BasicNet) (inp : GoStr), inp ≠ [] → inp ≠ ['"'] →
      (BasicNet.unmarshalJSON acl inp).isSome = true)
    ∧ (∀ (acl acl2 : BasicNet) (inp : GoStr),
        BasicNet.unmarshalJSON acl inp = some (acl2, none) →
        (∀ t ∈ splitOnChar ',' (trimSpace ((inp.drop 1).dropLast)), trimSpace t ≠ []) →
        ∀ e ∈ acl2.allowed, e.isSome = true)
    ∧ (∀ (acl : BasicNet) (ip : GoIP), (∀ e ∈ acl.allowed, e.isSome = true) →
        (acl.permitted ip).isSome = true) := by
  refine ⟨unmarshalHost_isSome, unmarshalNet_isSome, ?_, ?_⟩
  · intro acl acl2 inp h hnb
    cases inp with
    | nil => simp [BasicNet.unmarshalJSON] at h
    | cons c rest =>
      simp only [BasicNet.unmarshalJSON] at h
      by_cases hq : c ≠ '"' ∨ (c :: rest).getLast? ≠ some '"'
      · rw [if_pos hq] at h
        simp at h
      · rw [if_neg hq] at h
        by_cases hr : rest = []
        · rw [if_pos hr] at h
          simp at h
        · rw [if_neg hr] at h
          cases hn : netLoop (splitOnChar ',' (trimSpace (((c :: rest).drop 1).dropLast))) with
          | error e2 => rw [hn] at h; simp at h
          | ok l =>
            rw [hn] at h
            simp only [Option.some.injEq, Prod.mk.injEq, and_true] at h
            subst h
            exact netLoop_all_entries _ l hn hnb
  · intro acl ip h
    unfold BasicNet.permitted
    split
    · rfl
    · exact permLoop_isSome acl.allowed ip h

/-- Witness for C10: a well-formed quoted payload decodes without panic, the
decoded nil-free list keeps `Permitted` total. -/
theorem unmarshal_total_and_safe_witness :
    (Basic.unmarshalJSON newBasic ("\"\"".data)).isSome = true
    ∧ (BasicNet.unmarshalJSON newBasicNet ("\"10.0.0.0/8\"".data)).isSome = true
    ∧ (∀ e ∈ (⟨[some ⟨[10, 0, 0, 0], [255, 0, 0, 0]⟩]⟩ : BasicNet).allowed,
        e.isSome = true)
    ∧ (BasicNet.permitted ⟨[some ⟨[10, 0, 0, 0], [255, 0, 0, 0]⟩]⟩ [11, 0, 0, 1]).isSome
        = true :=
  ⟨unmarshal_total_and_safe.1 newBasic ("\"\"".data) (by decide) (by decide),
   unmarshal_total_and_safe.2.1 newBasicNet ("\"10.0.0.0/8\"".data) (by decide) (by decide),
   unmarshal_total_and_safe.2.2.1 newBasicNet ⟨[some ⟨[10, 0, 0, 0], [255, 0, 0, 0]⟩]⟩
     ("\"10.0.0.0/8\"".data) (by decide) (by decide),
   unmarshal_total_and_safe.2.2.2 ⟨[some ⟨[10, 0, 0, 0], [255, 0, 0, 0]⟩]⟩ [11, 0, 0, 1]
     (by decide)⟩

/-! ### C6: flat-file round trip -/

theorem goStrLe_total (a : GoStr) : ∀ b : GoStr, goStrLe a b = true ∨ goStrLe b a = true := by
  induction a with
  | nil => intro b; left; rfl
  | cons x as ih =>
    intro b
    cases b with
    | nil => right; rfl
    | cons y bs =>
      rcases lt_trichotomy x y with h | h | h
      · left; simp [goStrLe, h]
      · subst h
        simpa [goStrLe] using ih bs
      · right; simp [goStrLe, h]

theorem goStrLe_trans (a : GoStr) : ∀ b c : GoStr,
    goStrLe a b = true → goStrLe b c = true → goStrLe a c = true := by
  induction a with
  | nil => intro b c _ _; rfl
  | cons x as ih =>
    intro b c h1 h2
    cases b with
    | nil => simp [goStrLe] at h1
    | cons y bs =>
      cases c with
      | nil => simp [goStrLe] at h2
      | cons z cs =>
        rcases lt_trichotomy x y with hxy | hxy | hxy
        · rcases lt_trichotomy y z with hyz | hyz | hyz
          · simp [goStrLe, lt_trans hxy hyz]
          · subst hyz; simp [goStrLe, hxy]
          · simp [goStrLe, hyz, asymm hyz] at h2
        · subst hxy
          rcases lt_trichotomy x z with hyz | hyz | hyz
          · simp [goStrLe, hyz]
          · subst hyz
            simp only [goStrLe, lt_self_iff_false, if_false] at h1 h2 ⊢
            exact ih bs cs h1 h2
          · simp [goStrLe, hyz, asymm hyz] at h2
        · simp [goStrLe, hxy, asymm hxy] at h1

instance : IsTotal GoStr strLe := ⟨fun a b => goStrLe_total a b⟩

instance : IsTrans GoStr strLe := ⟨fun a b c => goStrLe_trans a b c⟩

theorem sortStrings_perm (l : List GoStr) : List.Perm (sortStrings l) l :=
  List.perm_insertionSort strLe l

theorem sortStrings_sorted (l : List GoStr) : List.Sorted strLe (sortStrings l) :=
  List.sorted_insertionSort strLe l

theorem sortStrings_of_sorted {l : List GoStr} (h : List.Sorted strLe l) :
    sortStrings l = l :=
  h.insertionSort_eq

theorem splitOnChar_of_not_mem (sep : Char) (s : GoStr) (h : sep ∉ s) :
    splitOnChar sep s = [s] := by
  induction s with
  | nil => rfl
  | cons c cs ih =>
    have hc : c ≠ sep := fun hcc => h (hcc ▸ List.mem_cons_self _ _)
    have hcs : sep ∉ cs := fun hm => h (List.mem_cons_of_mem _ hm)
    simp only [splitOnChar, ih hcs, if_neg hc, List.headI, List.tail]

theorem splitOnChar_append (sep : Char) (s t : GoStr) (h : sep ∉ s) :
    splitOnChar sep (s ++ sep :: t) = s :: splitOnChar sep t := by
  induction s with
  | nil => simp [splitOnChar]
  | cons c cs ih =>
    have hc : c ≠ sep := fun hcc => h (hcc ▸ List.mem_cons_self _ _)
    have hcs : sep ∉ cs := fun hm => h (List.mem_cons_of_mem _ hm)
    simp only [List.cons_append, splitOnChar, List.append_eq, ih hcs, if_neg hc,
      List.headI, List.tail]

theorem splitOnChar_joinNl (L : List GoStr) (hne : L ≠ [])
    (h : ∀ s ∈ L, '\n' ∉ s) : splitOnChar '\n' (joinNl L) = L := by
  induction L with
  | nil => exact absurd rfl hne
  | cons s rest ih =>
    cases rest with
    | nil => exact splitOnChar_of_not_mem '\n' s (h s (List.mem_cons_self _ _))
    | cons t rest2 =>
      have hjoin : joinNl (s :: t :: rest2) = s ++ '\n' :: joinNl (t :: rest2) := rfl
      rw [hjoin, splitOnChar_append '\n' s _ (h s (List.mem_cons_self _ _)),
        ih (by simp) fun u hu => h u (List.mem_cons_of_mem _ hu)]

theorem loadLoop_ok (L : List GoStr) : ∀ acc : List GoStr,
    (∀ s ∈ L, ∃ b, validIP b = true ∧ parseIP s = some b ∧ ipString b = s) →
    L.Nodup → (∀ s ∈ L, s ∉ acc) →
    loadLoop L ⟨acc⟩ = .ok ⟨acc ++ L⟩ := by
  induction L with
  | nil => intro acc _ _ _; simp [loadLoop]
  | cons s rest ih =>
    intro acc hwf hnd hdisj
    obtain ⟨b, hv, hp, hsb⟩ := hwf s (List.mem_cons_self _ _)
    unfold loadLoop
    rw [hp]
    have hadd : Basic.add ⟨acc⟩ b = ⟨acc ++ [s]⟩ := by
      unfold Basic.add
      rw [if_neg (by simp [hv])]
      unfold insertKey
      rw [hsb, if_neg (hdisj s (List.mem_cons_self _ _))]
    show loadLoop rest (Basic.add ⟨acc⟩ b) = Except.ok ⟨acc ++ s :: rest⟩
    rw [hadd,
      ih (acc ++ [s]) (fun u hu => hwf u (List.mem_cons_of_mem _ hu)) hnd.of_cons ?_]
    · simp
    · intro u hu hmem
      rcases List.mem_append.mp hmem with hacc | hs
      · exact hdisj u (List.mem_cons_of_mem _ hu) hacc
      · have : u = s := by simpa using hs
        subst this
        exact (List.nodup_cons.mp hnd).1 hu

/-- Counterexample to C6: the flat-file encoding of the empty host ACL is
the empty byte slice, whose decoding splits into the single line `""`,
which fails to parse — so `LoadBasic(DumpBasic(empty))` errors instead of
reproducing the ACL. -/
theorem empty_roundtrip_counterexample :
    dumpBasic newBasic = [] ∧ loadBasic (dumpBasic newBasic)
      = .error "netallow: invalid address" := by decide

/-- C6 amended.  For every nonempty host ACL whose members are canonical,
newline-free address strings of valid addresses (as `Add` produces),
decoding the flat-file encoding succeeds and reproduces the same membership
set, and re-encoding the decoded ACL is byte-identical to the original
encoding.  For the empty ACL the decode step fails instead
(see the counterexample). -/
theorem dump_load_roundtrip (acl : Basic)
    (hne : acl.allowed ≠ [])
    (hnd : acl.allowed.Nodup)
    (hwf : ∀ s ∈ acl.allowed,
      ∃ b, validIP b = true ∧ parseIP s = some b ∧ ipString b = s ∧ '\n' ∉ s) :
    ∃ acl2, loadBasic (dumpBasic acl) = .ok acl2
      ∧ (∀ s, s ∈ acl2.allowed ↔ s ∈ acl.allowed)
      ∧ dumpBasic acl2 = dumpBasic acl := by
  have hperm : List.Perm (sortStrings acl.allowed) acl.allowed := sortStrings_perm _
  have hLwf : ∀ s ∈ sortStrings acl.allowed,
      ∃ b, validIP b = true ∧ parseIP s = some b ∧ ipString b = s ∧ '\n' ∉ s :=
    fun s hs => hwf s (hperm.mem_iff.mp hs)
  have hLnd : (sortStrings acl.allowed).Nodup := hperm.nodup_iff.mpr hnd
  have hLne : sortStrings acl.allowed ≠ [] := by
    intro h
    apply hne
    have hlen := hperm.length_eq
    rw [h] at hlen
    exact List.length_eq_zero.mp hlen.symm
  have hsplit : splitOnChar '\n' (joinNl (sortStrings acl.allowed)) = sortStrings acl.allowed :=
    splitOnChar_joinNl _ hLne fun s hs => (hLwf s hs).choose_spec.2.2.2
  have hload : loadBasic (dumpBasic acl) = .ok ⟨sortStrings acl.allowed⟩ := by
    unfold loadBasic dumpBasic newBasic
    rw [hsplit]
    simpa using loadLoop_ok (sortStrings acl.allowed) []
      (fun s hs => ⟨(hLwf s hs).choose, (hLwf s hs).choose_spec.1,
        (hLwf s hs).choose_spec.2.1, (hLwf s hs).choose_spec.2.2.1⟩)
      hLnd (by simp)
  refine ⟨⟨sortStrings acl.allowed⟩, hload, fun s => hperm.mem_iff, ?_⟩
  have hss : sortStrings (sortStrings acl.allowed) = sortStrings acl.allowed :=
    sortStrings_of_sorted (sortStrings_sorted _)
  unfold dumpBasic
  show joinNl (sortStrings (sortStrings acl.allowed)) = joinNl (sortStrings acl.allowed)
  rw [hss]

/-- Witness for C6 on a concrete two-member ACL. -/
theorem dump_load_roundtrip_witness :
    ∃ acl2, loadBasic (dumpBasic ⟨["127.0.0.1".data, "10.0.1.15".data]⟩) = .ok acl2
      ∧ (∀ s, s ∈ acl2.allowed ↔ s ∈ (⟨["127.0.0.1".data, "10.0.1.15".data]⟩ : Basic).allowed)
      ∧ dumpBasic acl2 = dumpBasic ⟨["127.0.0.1".data, "10.0.1.15".data]⟩ := by
  apply dump_load_roundtrip
  · decide
  · decide
  · intro s hs
    rcases List.mem_cons.mp hs with rfl | hs2
    · exact ⟨[0, 0, 0, 0, 0, 0, 0, 0, 0, 0, 255, 255, 127, 0, 0, 1],
        by decide, by decide, by decide, by decide⟩
    · have : s = "10.0.1.15".data := by simpa using hs2
      subst this
      exact ⟨[0, 0, 0, 0, 0, 0, 0, 0, 0, 0, 255, 255, 10, 0, 1, 15],
        by decide, by decide, by decide, by decide⟩

end Netallow


